import Mathlib

/-!
Verification of the streaming archive-extraction subsystem of
`crates/uv-extract/src/stream.rs`.

The development shallowly embeds the extraction functions as pure Lean
functions: archive entry names are lists of characters, archive streams
explicit lists of entries, filesystem writes an explicit effect trace,
and the permission state a function from paths to modes.  Paths are
modelled through their component decomposition, which is how the Rust
`std::path` API (Unix semantics) compares and iterates them.
-/

namespace UvExtract

/-- An archive entry name / path string, as a list of characters. -/
abbrev Name := List Char

/-- A path component, as produced by Rust's `Path::components()` on Unix:
a leading root (`/`), a current-directory component (`.`), a
parent-directory component (`..`), or a normal named component.
(`Component::Prefix` is Windows-only and cannot arise from the Unix
parse, so it is absent here; the source treats it exactly like
`RootDir`.) -/
inductive Component where
  | rootDir : Component
  | curDir : Component
  | parentDir : Component
  | normal (s : Name) : Component
deriving DecidableEq, Repr

/-- Classify one chunk of a path split at `/`, mirroring Rust's
`Components` iterator body: empty chunks and interior `.` chunks are
skipped, `..` is a parent-directory component, anything else a normal
component. -/
def classifyChunk (chunk : Name) : Option Component :=
  if chunk = [] then none
  else if chunk = ['.'] then none
  else if chunk = ['.', '.'] then some Component.parentDir
  else some (Component.normal chunk)

/-- Whether the raw path starts with a `/` (Unix `has_physical_root`). -/
def startsWithSlash : Name → Bool
  | '/' :: _ => true
  | _ => false

/-- Whether the raw path starts with a lone `.` component (Rust's
`include_cur_dir`: the path is exactly `.` or begins with `./`). -/
def leadingCurDir : Name → Bool
  | ['.'] => true
  | '.' :: '/' :: _ => true
  | _ => false

/-- Rust `Path::components()` with Unix semantics: a leading `/` yields
`RootDir`; otherwise a leading `.` chunk yields `CurDir`; the remaining
non-empty chunks are classified, with interior `.` chunks dropped. -/
def pathComponents (s : Name) : List Component :=
  let body := (s.splitOn '/').filterMap classifyChunk
  if startsWithSlash s then Component.rootDir :: body
  else if leadingCurDir s then Component.curDir :: body
  else body

/-- The component loop of `enclosed_name` (stream.rs lines 32–40):
`Prefix`/`RootDir` aborts, `..` is `depth.checked_sub(1)?`, a normal
component increments the depth, `.` is a no-op.  Returns the final
depth, or `none` when the name is rejected. -/
def componentScan : List Component → Nat → Option Nat
  | [], depth => some depth
  | Component.rootDir :: _, _ => none
  | Component.parentDir :: rest, depth =>
      if depth = 0 then none else componentScan rest (depth - 1)
  | Component.normal _ :: rest, depth => componentScan rest (depth + 1)
  | Component.curDir :: rest, depth => componentScan rest depth

/-- The sanitizer `enclosed_name` (stream.rs lines 27–42): reject a name containing a
NUL byte, then run the component scan on `PathBuf::from(file_name)`;
on success return the `PathBuf`, i.e. the input string unchanged. -/
def enclosed_name (file_name : Name) : Option Name :=
  if file_name.contains '\x00' then none
  else
    match componentScan (pathComponents file_name) 0 with
    | none => none
    | some _ => some file_name

example : enclosed_name "a/../b".toList = some "a/../b".toList := by decide
example : enclosed_name "../a".toList = none := by decide
example : enclosed_name "/a".toList = none := by decide
example : enclosed_name "./a".toList = some "./a".toList := by decide
example : enclosed_name "a/b/../../c".toList = some "a/b/../../c".toList := by decide
example : enclosed_name "a/b/../../../c".toList = none := by decide
example : enclosed_name ['a', '\x00'] = none := by decide

/-- Whether a component is a parent-directory (`..`) component. -/
def isParentDir : Component → Bool
  | Component.parentDir => true
  | _ => false

/-- Whether a component is a normal named component. -/
def isNormal : Component → Bool
  | Component.normal _ => true
  | _ => false

/-- Number of `..` components in a component list. -/
def countParent (cs : List Component) : Nat := cs.countP isParentDir

/-- Number of normal components in a component list. -/
def countNormal (cs : List Component) : Nat := cs.countP isNormal

/-- The spec's rejection condition for `enclosed_name`: the name
contains a NUL byte, or begins with a root component, or has a prefix
of its component sequence with more `..` components than preceding
normal components. -/
def specRejects (n : Name) : Prop :=
  n.contains '\x00' = true
  ∨ (pathComponents n).head? = some Component.rootDir
  ∨ ∃ k, countNormal ((pathComponents n).take k) <
      countParent ((pathComponents n).take k)

lemma classifyChunk_ne_root (c : Name) :
    classifyChunk c ≠ some Component.rootDir := by
  unfold classifyChunk
  repeat' split
  all_goals simp

lemma root_not_mem_body (l : List Name) :
    Component.rootDir ∉ l.filterMap classifyChunk := by
  intro h
  obtain ⟨a, _, ha⟩ := List.mem_filterMap.mp h
  exact classifyChunk_ne_root a ha

lemma root_mem_head (n : Name) (h : Component.rootDir ∈ pathComponents n) :
    (pathComponents n).head? = some Component.rootDir := by
  unfold pathComponents at *
  by_cases hs : startsWithSlash n = true
  · simp [hs]
  · simp only [hs, if_false] at h ⊢
    by_cases hc : leadingCurDir n = true
    · simp only [hc, if_true] at h ⊢
      rcases List.mem_cons.mp h with h | h
      · exact absurd h.symm (by simp)
      · exact absurd h (root_not_mem_body _)
    · simp only [hc, if_false] at h ⊢
      exact absurd h (root_not_mem_body _)

lemma exists_prefix_cons (c : Component) (l : List Component) (d : Nat) :
    (∃ k, d + countNormal ((c :: l).take k) < countParent ((c :: l).take k)) ↔
      ∃ k, d + countNormal (c :: l.take k) < countParent (c :: l.take k) := by
  constructor
  · rintro ⟨k, hk⟩
    cases k with
    | zero =>
        exfalso
        simp only [List.take, countNormal, countParent, List.countP_nil] at hk
        omega
    | succ k => exact ⟨k, by simpa [List.take_succ_cons] using hk⟩
  · rintro ⟨k, hk⟩
    exact ⟨k + 1, by simpa [List.take_succ_cons] using hk⟩

lemma scan_none_iff (cs : List Component)
    (hroot : Component.rootDir ∉ cs) (d : Nat) :
    componentScan cs d = none ↔
      ∃ k, d + countNormal (cs.take k) < countParent (cs.take k) := by
  induction cs generalizing d with
  | nil =>
      simp [componentScan, countNormal, countParent]
  | cons c rest ih =>
      have hc : c ≠ Component.rootDir := fun h => hroot (h ▸ List.mem_cons_self c rest)
      have hrest : Component.rootDir ∉ rest := fun h => hroot (List.mem_cons_of_mem c h)
      rw [exists_prefix_cons c rest d]
      cases c with
      | rootDir => exact absurd rfl hc
      | curDir =>
          rw [componentScan, ih hrest d]
          refine exists_congr fun k => ?_
          simp only [countNormal, countParent, List.countP_cons, isNormal,
            isParentDir, Bool.false_eq_true, if_false, if_true, add_zero]
      | normal s =>
          rw [componentScan, ih hrest (d + 1)]
          refine exists_congr fun k => ?_
          simp only [countNormal, countParent, List.countP_cons, isNormal,
            isParentDir, Bool.false_eq_true, if_false, if_true, add_zero]
          omega
      | parentDir =>
          rw [componentScan]
          by_cases hd : d = 0
          · subst hd
            rw [if_pos rfl]
            constructor
            · intro _
              refine ⟨0, ?_⟩
              simp [countNormal, countParent, List.countP_cons, isNormal,
                isParentDir]
            · intro _
              rfl
          · rw [if_neg hd, ih hrest (d - 1)]
            refine exists_congr fun k => ?_
            simp only [countNormal, countParent, List.countP_cons, isNormal,
              isParentDir, Bool.false_eq_true, if_false, if_true, add_zero]
            omega

lemma scan_zero_none_iff (n : Name) :
    componentScan (pathComponents n) 0 = none ↔
      ((pathComponents n).head? = some Component.rootDir
        ∨ ∃ k, countNormal ((pathComponents n).take k) <
            countParent ((pathComponents n).take k)) := by
  rcases hcs : pathComponents n with _ | ⟨c, rest⟩
  · simp [componentScan, countNormal, countParent]
  · by_cases hcr : c = Component.rootDir
    · subst hcr
      simp [componentScan]
    · have hroot : Component.rootDir ∉ c :: rest := by
        intro hmem
        have hhd := root_mem_head n (by rw [hcs]; exact hmem)
        rw [hcs, List.head?_cons] at hhd
        exact hcr (Option.some.inj hhd)
      rw [scan_none_iff _ hroot 0, List.head?_cons]
      constructor
      · rintro ⟨k, hk⟩
        exact Or.inr ⟨k, by omega⟩
      · rintro (h | ⟨k, hk⟩)
        · exact absurd (Option.some.inj h) hcr
        · exact ⟨k, by omega⟩

/-- C1: `enclosed_name` rejects a name exactly when it contains a NUL
byte, begins with a root component, or has a prefix of its component
sequence with more `..` components than preceding normal components;
`.` components never affect the scan, and balanced
descend-then-ascend names such as `a/../b` are accepted. -/
theorem C1_enclosed_name_rejection :
    (∀ n : Name, enclosed_name n = none ↔ specRejects n)
    ∧ (∀ (cs₁ cs₂ : List Component) (d : Nat),
        componentScan (cs₁ ++ Component.curDir :: cs₂) d =
          componentScan (cs₁ ++ cs₂) d)
    ∧ enclosed_name "a/../b".toList = some "a/../b".toList := by
  refine ⟨fun n => ?_, fun cs₁ cs₂ d => ?_, by decide⟩
  · unfold enclosed_name specRejects
    by_cases hnul : n.contains '\x00' = true
    · rw [if_pos hnul, eq_self_iff_true, true_iff]
      exact Or.inl hnul
    · rw [if_neg hnul, iff_false_intro hnul, false_or,
        ← scan_zero_none_iff n]
      rcases h : componentScan (pathComponents n) 0 with _ | d <;> simp [h]
  · induction cs₁ generalizing d with
    | nil => simp [componentScan]
    | cons c rest ih =>
        cases c <;> simp only [List.cons_append, componentScan] <;>
          first
            | rfl
            | exact ih d
            | exact ih (d + 1)
            | (split <;> [rfl; exact ih (d - 1)])

/-! ## The zip and tar extraction model -/

/-- A path as compared by Rust `Path`/`PathBuf` equality and hashing:
its component list. -/
abbrev PathK := List Component

/-- tokio's `BufWriter::new` default capacity (8 KiB), used when the
declared size does not fit in `usize`. -/
def tokioDefaultBufCapacity : Nat := 8 * 1024

/-- Capacity of the destination file's buffered writer (stream.rs lines
81–85): `min(size, 1 MiB)` when the `u64` size fits in `usize`
(`usize::try_from(size)` succeeds, `usizeMax` being `usize::MAX`), else
`BufWriter::new`'s default. -/
def writerCapacity (usizeMax size : Nat) : Nat :=
  if size ≤ usizeMax then min size (1024 * 1024) else tokioDefaultBufCapacity

/-- The join `target.join(relpath)` viewed through `Path::components()`: the
target's components followed by the relative path's components.  A `.`
component of the relative path is no longer leading after the join and
thus disappears from the component view; the sanitizer guarantees the
relative path has no root component. -/
def joinPath (target : PathK) (rel : Name) : PathK :=
  target ++ (pathComponents rel).filter (fun c => c ≠ Component.curDir)

/-- Rust `path.parent()` on the component view: `none` for an empty or
root-only path, else the path without its last component. -/
def parentPath (p : PathK) : Option PathK :=
  if p = [] ∨ p = [Component.rootDir] then none else some p.dropLast

/-- One zip stream entry as surfaced by `async_zip`'s streaming reader:
the (already decoded) file name, the declared uncompressed size and
CRC32 from the local header, and the CRC32 the hashing reader computes
over the entry's decompressed bytes. -/
structure ZipEntry where
  filename : Name
  uncompressedSize : Nat
  crc32 : Nat
  computedCrc : Nat
deriving DecidableEq, Repr

/-- Whether `entry.dir()` holds: `async_zip` reports an entry as a directory exactly
when its file name ends with `/`. -/
def ZipEntry.isDir (e : ZipEntry) : Bool := e.filename.getLast? = some '/'

/-- Observable filesystem / logging actions of an extraction, in
program order. -/
inductive Effect where
  | warnUnsafeName (name : Name)
  | warnBadCrc (path : Name)
  | warnSkipSymlink (path : Name)
  | canonicalize (dst : PathK)
  | createDirAll (p : PathK)
  | createFile (p : PathK) (writerCap : Nat)
  | unpackEntry (p : PathK)
  | setPermissions (p : PathK) (mode : Nat)
deriving DecidableEq, Repr

/-- The zip extraction error of interest: `Error::BadCrc32` carrying
the entry's relative path and the computed and expected checksums. -/
inductive ZipError where
  | badCrc32 (path : Name) (computed expected : Nat)
deriving DecidableEq, Repr

/-- One iteration of the `unzip` entry loop (stream.rs lines 50–116):
sanitize the name (warn and skip the entry on rejection); for a
directory entry create it unless already recorded in the `directories`
set; for a file entry create its parent directory (memoized), create
the file with a sized buffered writer, and compare the computed CRC32
against the declared one.  Returns the effects, the updated directory
set, and an error when the entry aborts the extraction. -/
def processEntry (target : PathK) (usizeMax : Nat) (e : ZipEntry)
    (dirs : List PathK) : List Effect × List PathK × Option ZipError :=
  match enclosed_name e.filename with
  | none => ([Effect.warnUnsafeName e.filename], dirs, none)
  | some relpath =>
      let path := joinPath target relpath
      if e.isDir then
        if path ∈ dirs then ([], dirs, none)
        else ([Effect.createDirAll path], path :: dirs, none)
      else
        let step1 : List Effect × List PathK :=
          match parentPath path with
          | none => ([], dirs)
          | some parent =>
              if parent ∈ dirs then ([], dirs)
              else ([Effect.createDirAll parent], parent :: dirs)
        let effects := step1.1 ++
          [Effect.createFile path (writerCapacity usizeMax e.uncompressedSize)]
        if e.computedCrc ≠ e.crc32 then
          if e.crc32 = 0 then
            (effects ++ [Effect.warnBadCrc relpath], step1.2, none)
          else
            (effects, step1.2,
              some (ZipError.badCrc32 relpath e.computedCrc e.crc32))
        else (effects, step1.2, none)

/-- The `unzip` entry loop over the whole stream: process entries in
order, stopping at the first fatal error. -/
def unzipEntries (target : PathK) (usizeMax : Nat) :
    List ZipEntry → List PathK → List Effect × List PathK × Option ZipError
  | [], dirs => ([], dirs, none)
  | e :: rest, dirs =>
      let step := processEntry target usizeMax e dirs
      match step.2.2 with
      | some er => (step.1, step.2.1, some er)
      | none =>
          let next := unzipEntries target usizeMax rest step.2.1
          (step.1 ++ next.1, next.2.1, next.2.2)

/-- One entry of the zip central directory: the decoded file name and
the optional Unix permission bits. -/
structure CdEntry where
  filename : Name
  unixPermissions : Option Nat
deriving DecidableEq, Repr

/-- Whether `entry.dir()` holds for a central-directory entry. -/
def CdEntry.isDir (e : CdEntry) : Bool := e.filename.getLast? = some '/'

/-- Permission state of the filesystem: the mode of the file at each
path. -/
abbrev FsModes := PathK → Nat

/-- One iteration of the central-directory permission pass (stream.rs
lines 127–156): skip directories, entries without permission metadata,
entries without any declared execute bit, and entries whose name the
sanitizer rejects; otherwise, when the on-disk file lacks any of the
three execute bits, OR `0o111` into its mode. -/
def cdStep (target : PathK) (fs : FsModes) (e : CdEntry) :
    FsModes × List Effect :=
  if e.isDir then (fs, [])
  else
    match e.unixPermissions with
    | none => (fs, [])
    | some mode =>
        if mode &&& 0o111 ≠ 0 then
          match enclosed_name e.filename with
          | none => (fs, [])
          | some rel =>
              let path := joinPath target rel
              if fs path &&& 0o111 ≠ 0o111 then
                (Function.update fs path (fs path ||| 0o111),
                  [Effect.setPermissions path (fs path ||| 0o111)])
              else (fs, [])
        else (fs, [])

/-- The whole central-directory permission pass. -/
def cdPass (target : PathK) : List CdEntry → FsModes → FsModes × List Effect
  | [], fs => (fs, [])
  | e :: rest, fs =>
      let step := cdStep target fs e
      let next := cdPass target rest step.1
      (next.1, step.2 ++ next.2)

/-- The extractor `unzip` (stream.rs lines 20–160): the target directory is used as
supplied (it is never canonicalized); the entry loop runs with a fresh
`directories` set; on Unix, once the entry stream is drained, the
central-directory pass patches execute bits. -/
def unzip (unix : Bool) (target : PathK) (usizeMax : Nat)
    (entries : List ZipEntry) (cd : List CdEntry) (fs : FsModes) :
    List Effect × Option ZipError × FsModes :=
  let run := unzipEntries target usizeMax entries []
  match run.2.2 with
  | some er => (run.1, some er, fs)
  | none =>
      if unix then
        let patched := cdPass target cd fs
        (run.1 ++ patched.2, none, patched.1)
      else (run.1, none, fs)

/-! ## The tar extraction model -/

/-- The tar entry types distinguished by `untar_in`. -/
inductive TarEntryType where
  | file
  | hardLink
  | symlink
  | directory
  | other
deriving DecidableEq, Repr

/-- One tar entry: its header path and mode, its type, and the
behaviour of `tokio-tar`'s `unpack_in_raw` on it — the relative
location under the destination where the entry lands (`none` when the
library skips it), and the file mode the entry has on disk right after
unpacking (OS defaults, since permission preservation is off). -/
structure TarEntry where
  path : Name
  entryType : TarEntryType
  mode : Nat
  unpackRel : Option PathK
  writtenMode : Nat
deriving DecidableEq, Repr

/-- One iteration of the `untar_in` loop (stream.rs lines 177–219): on
Windows skip symlink entries with a warning; otherwise unpack the entry
under the canonicalized destination and, on Unix, for regular files and
hard links whose header mode declares any execute bit, OR `0o111` into
the unpacked file's mode when it lacks any of the three bits. -/
def untarStep (windows unix : Bool) (root : PathK) (fs : FsModes)
    (e : TarEntry) : FsModes × List Effect :=
  if windows ∧ e.entryType = TarEntryType.symlink then
    (fs, [Effect.warnSkipSymlink e.path])
  else
    let unpackedAt := e.unpackRel.map (fun rel => root ++ rel)
    let step1 : FsModes × List Effect :=
      match unpackedAt with
      | some p => (Function.update fs p e.writtenMode, [Effect.unpackEntry p])
      | none => (fs, [])
    if unix ∧ (e.entryType = TarEntryType.file ∨
        e.entryType = TarEntryType.hardLink) ∧ e.mode &&& 0o111 ≠ 0 then
      match unpackedAt with
      | some p =>
          if step1.1 p &&& 0o111 ≠ 0o111 then
            (Function.update step1.1 p (step1.1 p ||| 0o111),
              step1.2 ++ [Effect.setPermissions p (step1.1 p ||| 0o111)])
          else step1
      | none => step1
    else step1

/-- The `untar_in` entry loop. -/
def untarEntries (windows unix : Bool) (root : PathK) :
    List TarEntry → FsModes → FsModes × List Effect
  | [], fs => (fs, [])
  | e :: rest, fs =>
      let step := untarStep windows unix root fs e
      let next := untarEntries windows unix root rest step.1
      (next.1, step.2 ++ next.2)

/-- The extractor `untar_in` (stream.rs lines 165–222): canonicalize the destination
once, before any write, then drain the entry loop against the canonical
root.  `canonFn` models `fs_err::tokio::canonicalize`. -/
def untar_in (windows unix : Bool) (canonFn : PathK → PathK) (dst : PathK)
    (entries : List TarEntry) (fs : FsModes) : FsModes × List Effect :=
  let root := canonFn dst
  let run := untarEntries windows unix root entries fs
  (run.1, Effect.canonicalize dst :: run.2)

/-! ## The tar reader configuration and the dispatcher -/

/-- The three `tokio-tar` reader settings the extractor configures:
whether stored modification times are honored, whether stored
ownership/permission bits are honored, and whether entries may resolve
through a symlink pointing outside the destination. -/
structure TarReaderConfig where
  preserveMtime : Bool
  preservePermissions : Bool
  allowExternalSymlinks : Bool
deriving DecidableEq, Repr

/-- The builder `tokio_tar::ArchiveBuilder::new`, restricted to the three settings
of interest; defaults modelled from the library (modification times
preserved, permission preservation off, external symlinks allowed).
Every call site overrides all three, so the defaults are inert. -/
def ArchiveBuilder.new : TarReaderConfig :=
  { preserveMtime := true, preservePermissions := false,
    allowExternalSymlinks := true }

/-- Setter `ArchiveBuilder::set_preserve_mtime`. -/
def TarReaderConfig.set_preserve_mtime (c : TarReaderConfig) (b : Bool) :
    TarReaderConfig := { c with preserveMtime := b }

/-- Setter `ArchiveBuilder::set_preserve_permissions`. -/
def TarReaderConfig.set_preserve_permissions (c : TarReaderConfig) (b : Bool) :
    TarReaderConfig := { c with preservePermissions := b }

/-- Setter `ArchiveBuilder::set_allow_external_symlinks`. -/
def TarReaderConfig.set_allow_external_symlinks (c : TarReaderConfig) (b : Bool) :
    TarReaderConfig := { c with allowExternalSymlinks := b }

/-- Reader configuration built by `untar_gz` (stream.rs lines 234–240). -/
def untarGzConfig : TarReaderConfig :=
  ((ArchiveBuilder.new.set_preserve_mtime false).set_preserve_permissions
      false).set_allow_external_symlinks false

/-- Reader configuration built by `untar_bz2` (stream.rs lines 254–260). -/
def untarBz2Config : TarReaderConfig :=
  ((ArchiveBuilder.new.set_preserve_mtime false).set_preserve_permissions
      false).set_allow_external_symlinks false

/-- Reader configuration built by `untar_zst` (stream.rs lines 274–280). -/
def untarZstConfig : TarReaderConfig :=
  ((ArchiveBuilder.new.set_preserve_mtime false).set_preserve_permissions
      false).set_allow_external_symlinks false

/-- Reader configuration built by `untar_xz` (stream.rs lines 294–300). -/
def untarXzConfig : TarReaderConfig :=
  ((ArchiveBuilder.new.set_preserve_mtime false).set_preserve_permissions
      false).set_allow_external_symlinks false

/-- Reader configuration built by `untar` (stream.rs lines 314–319). -/
def untarPlainConfig : TarReaderConfig :=
  ((ArchiveBuilder.new.set_preserve_mtime false).set_preserve_permissions
      false).set_allow_external_symlinks false

/-- The format discriminator `SourceDistExtension` consumed by the
dispatcher. -/
inductive SourceDistExtension where
  | zip
  | tar
  | tgz
  | tarGz
  | tbz
  | tarBz2
  | txz
  | tarXz
  | tlz
  | tarLz
  | tarLzma
  | tarZst
deriving DecidableEq, Repr

/-- The tar reader configuration used by the `archive` dispatcher
(stream.rs lines 326–356) for each format; `none` for zip, which takes
the non-tar path. -/
def archiveTarConfig : SourceDistExtension → Option TarReaderConfig
  | SourceDistExtension.zip => none
  | SourceDistExtension.tar => some untarPlainConfig
  | SourceDistExtension.tgz | SourceDistExtension.tarGz => some untarGzConfig
  | SourceDistExtension.tbz | SourceDistExtension.tarBz2 => some untarBz2Config
  | SourceDistExtension.txz | SourceDistExtension.tarXz
  | SourceDistExtension.tlz | SourceDistExtension.tarLz
  | SourceDistExtension.tarLzma => some untarXzConfig
  | SourceDistExtension.tarZst => some untarZstConfig

/-! ## Helper predicates over effects -/

/-- Whether an effect is one of the warnings the extractor can log. -/
def isWarning : Effect → Bool
  | Effect.warnUnsafeName _ => true
  | Effect.warnBadCrc _ => true
  | Effect.warnSkipSymlink _ => true
  | _ => false

/-- Whether an effect is the suppressed zero-CRC warning. -/
def isCrcWarning : Effect → Bool
  | Effect.warnBadCrc _ => true
  | _ => false

/-- Whether an effect is a canonicalization of the destination. -/
def isCanonicalize : Effect → Bool
  | Effect.canonicalize _ => true
  | _ => false

/-- Whether an effect is a `set_permissions` call. -/
def isSetPermissions : Effect → Bool
  | Effect.setPermissions _ _ => true
  | _ => false

/-- The directory paths passed to `create_dir_all` in a trace. -/
def createdDirs (effects : List Effect) : List PathK :=
  effects.filterMap fun ef =>
    match ef with
    | Effect.createDirAll p => some p
    | _ => none

/-- The path an effect writes to, when it writes. -/
def writePath : Effect → Option PathK
  | Effect.createDirAll p => some p
  | Effect.createFile p _ => some p
  | Effect.unpackEntry p => some p
  | Effect.setPermissions p _ => some p
  | _ => none

/-! ## Loop unfolding lemmas -/

lemma unzipEntries_cons_none (target : PathK) (usizeMax : Nat) (e : ZipEntry)
    (rest : List ZipEntry) (dirs : List PathK)
    (h : (processEntry target usizeMax e dirs).2.2 = none) :
    unzipEntries target usizeMax (e :: rest) dirs =
      ((processEntry target usizeMax e dirs).1 ++
          (unzipEntries target usizeMax rest
            (processEntry target usizeMax e dirs).2.1).1,
        (unzipEntries target usizeMax rest
          (processEntry target usizeMax e dirs).2.1).2.1,
        (unzipEntries target usizeMax rest
          (processEntry target usizeMax e dirs).2.1).2.2) := by
  simp only [unzipEntries, h]

lemma unzipEntries_cons_some (target : PathK) (usizeMax : Nat) (e : ZipEntry)
    (rest : List ZipEntry) (dirs : List PathK) (er : ZipError)
    (h : (processEntry target usizeMax e dirs).2.2 = some er) :
    unzipEntries target usizeMax (e :: rest) dirs =
      ((processEntry target usizeMax e dirs).1,
        (processEntry target usizeMax e dirs).2.1, some er) := by
  simp only [unzipEntries, h]

/-! ## C4: rejected entry names are skipped non-fatally -/

/-- C4: a zip entry whose name the sanitizer rejects does not fail the
extraction: exactly one warning is logged, no filesystem effect is
produced for it, the directory set is unchanged, and processing
continues with the remaining entries. -/
theorem C4_unsafe_name_skipped (target : PathK) (usizeMax : Nat)
    (e : ZipEntry) (rest : List ZipEntry) (dirs : List PathK)
    (h : enclosed_name e.filename = none) :
    unzipEntries target usizeMax (e :: rest) dirs =
      (Effect.warnUnsafeName e.filename ::
          (unzipEntries target usizeMax rest dirs).1,
        (unzipEntries target usizeMax rest dirs).2.1,
        (unzipEntries target usizeMax rest dirs).2.2) := by
  have hp : processEntry target usizeMax e dirs =
      ([Effect.warnUnsafeName e.filename], dirs, none) := by
    unfold processEntry
    rw [h]
  rw [unzipEntries_cons_none target usizeMax e rest dirs (by rw [hp]), hp]
  simp

theorem C4_witness :
    unzipEntries [] 100 [ZipEntry.mk "../x".toList 0 0 0] [] =
      ([Effect.warnUnsafeName "../x".toList], [], none) :=
  C4_unsafe_name_skipped [] 100 (ZipEntry.mk "../x".toList 0 0 0) [] []
    (by decide)

/-! ## C6: fixed tar reader configuration -/

/-- C6: every tar extraction, for every compression variant routed by
the dispatcher, configures the reader identically: stored modification
times are not honored, stored ownership/permission bits are not
honored, and entries may not resolve through an external symlink. -/
theorem C6_tar_reader_config :
    (∀ ext cfg, archiveTarConfig ext = some cfg →
      cfg = { preserveMtime := false, preservePermissions := false,
              allowExternalSymlinks := false })
    ∧ untarPlainConfig = untarGzConfig
    ∧ untarGzConfig = untarBz2Config
    ∧ untarBz2Config = untarZstConfig
    ∧ untarZstConfig = untarXzConfig := by
  refine ⟨fun ext cfg h => ?_, rfl, rfl, rfl, rfl⟩
  cases ext <;>
    first
      | exact Option.noConfusion h
      | exact (Option.some.inj h).symm.trans rfl

theorem C6_witness :
    untarGzConfig = { preserveMtime := false, preservePermissions := false,
                      allowExternalSymlinks := false } :=
  C6_tar_reader_config.1 SourceDistExtension.tgz untarGzConfig rfl

/-! ## C9: writer buffer sizing -/

/-- C9 counterexample: with a 32-bit `usize`, an entry declaring `2^32`
bytes takes the fallback branch, whose buffer is the writer's 8 KiB
default — sixteen times smaller than the ~128 KiB the claim states. -/
theorem C9_counterexample :
    writerCapacity (2 ^ 32 - 1) (2 ^ 32) = 8 * 1024
    ∧ (8 * 1024) * 16 = 128 * 1024
    ∧ writerCapacity (2 ^ 32 - 1) (2 ^ 32) ≠ 128 * 1024 := by
  refine ⟨?_, by norm_num, ?_⟩ <;>
    simp [writerCapacity, tokioDefaultBufCapacity]

/-- C9 (amended): for every file entry the destination writer is sized
to `min(declared_size, 1 MiB)` when the declared size fits `usize`, and
otherwise to the writer's fixed 8 KiB default; `processEntry` attaches
exactly that capacity to the entry's single `createFile` effect. -/
theorem C9_writer_capacity (target : PathK) (usizeMax : Nat) (e : ZipEntry)
    (dirs : List PathK) (rel : Name)
    (hname : enclosed_name e.filename = some rel)
    (hdir : e.isDir = false) :
    ((processEntry target usizeMax e dirs).1.filterMap
        (fun ef => match ef with
          | Effect.createFile _ cap => some cap
          | _ => none)
      = [writerCapacity usizeMax e.uncompressedSize])
    ∧ (e.uncompressedSize ≤ usizeMax →
        writerCapacity usizeMax e.uncompressedSize =
          min e.uncompressedSize (1024 * 1024))
    ∧ (usizeMax < e.uncompressedSize →
        writerCapacity usizeMax e.uncompressedSize = 8 * 1024) := by
  refine ⟨?_, fun h => by simp [writerCapacity, h],
    fun h => by simp [writerCapacity, Nat.not_le_of_lt h,
      if_neg, tokioDefaultBufCapacity]⟩
  unfold processEntry
  rw [hname]
  simp only [hdir, Bool.false_eq_true, if_false]
  rcases parentPath (joinPath target rel) with _ | parent <;>
    simp only [] <;>
    [skip; (by_cases hm : parent ∈ dirs <;> simp only [hm, if_true, if_false])] <;>
    split <;> (try split) <;> simp [List.filterMap]

theorem C9_witness :
    ((processEntry [] 100 (ZipEntry.mk "f".toList 7 9 9) []).1.filterMap
        (fun ef => match ef with
          | Effect.createFile _ cap => some cap
          | _ => none)
      = [writerCapacity 100 7])
    ∧ writerCapacity 100 7 = min 7 (1024 * 1024) :=
  ⟨(C9_writer_capacity [] 100 (ZipEntry.mk "f".toList 7 9 9) [] "f".toList
      (by decide) (by decide)).1,
   (C9_writer_capacity [] 100 (ZipEntry.mk "f".toList 7 9 9) [] "f".toList
      (by decide) (by decide)).2.1 (by norm_num)⟩

/-! ## C10: the sanitizer is the identity on accepted names -/

/-- C10: on accepted inputs `enclosed_name` returns the input name
unchanged — `.` and balanced `..` components are preserved rather than
normalized away. -/
theorem C10_identity :
    (∀ n p : Name, enclosed_name n = some p → p = n)
    ∧ enclosed_name "a/.././b".toList = some "a/.././b".toList := by
  refine ⟨fun n p h => ?_, by decide⟩
  unfold enclosed_name at h
  split at h
  · exact Option.noConfusion h
  · rcases hscan : componentScan (pathComponents n) 0 with _ | d <;>
      simp only [hscan] at h
    · exact Option.noConfusion h
    · exact (Option.some.inj h).symm

theorem C10_witness : "a/../b".toList = "a/../b".toList :=
  C10_identity.1 "a/../b".toList "a/../b".toList (by decide)

/-! ## C2: CRC32 enforcement -/

/-- C2: after a file entry's bytes are copied, a CRC mismatch against a
non-zero declared checksum fails the whole extraction with
`BadCrc32` carrying the entry path and both checksums (later entries
are never processed); a mismatch against a zero declared checksum
continues with exactly one warning for that entry; matching checksums
produce neither error nor warning. -/
theorem C2_crc_check (target : PathK) (usizeMax : Nat) (e : ZipEntry)
    (rest : List ZipEntry) (dirs : List PathK) (rel : Name)
    (hname : enclosed_name e.filename = some rel)
    (hdir : e.isDir = false) :
    (e.computedCrc ≠ e.crc32 → e.crc32 ≠ 0 →
      unzipEntries target usizeMax (e :: rest) dirs =
        ((processEntry target usizeMax e dirs).1,
          (processEntry target usizeMax e dirs).2.1,
          some (ZipError.badCrc32 rel e.computedCrc e.crc32)))
    ∧ (e.computedCrc ≠ e.crc32 → e.crc32 = 0 →
        (processEntry target usizeMax e dirs).2.2 = none
        ∧ (processEntry target usizeMax e dirs).1.countP isCrcWarning = 1
        ∧ unzipEntries target usizeMax (e :: rest) dirs =
            ((processEntry target usizeMax e dirs).1 ++
                (unzipEntries target usizeMax rest
                  (processEntry target usizeMax e dirs).2.1).1,
              (unzipEntries target usizeMax rest
                (processEntry target usizeMax e dirs).2.1).2.1,
              (unzipEntries target usizeMax rest
                (processEntry target usizeMax e dirs).2.1).2.2))
    ∧ (e.computedCrc = e.crc32 →
        (processEntry target usizeMax e dirs).2.2 = none
        ∧ (processEntry target usizeMax e dirs).1.countP isWarning = 0) := by
  have hstep : ∀ dirEffects dirs1,
      dirEffects.countP isWarning = 0 →
      dirEffects.countP isCrcWarning = 0 →
      processEntry target usizeMax e dirs =
        (if e.computedCrc ≠ e.crc32 then
          if e.crc32 = 0 then
            (dirEffects ++
                [Effect.createFile (joinPath target rel)
                  (writerCapacity usizeMax e.uncompressedSize)] ++
                [Effect.warnBadCrc rel], dirs1, none)
          else
            (dirEffects ++
                [Effect.createFile (joinPath target rel)
                  (writerCapacity usizeMax e.uncompressedSize)], dirs1,
              some (ZipError.badCrc32 rel e.computedCrc e.crc32))
        else
          (dirEffects ++
              [Effect.createFile (joinPath target rel)
                (writerCapacity usizeMax e.uncompressedSize)], dirs1, none)) →
      ((e.computedCrc ≠ e.crc32 → e.crc32 ≠ 0 →
        unzipEntries target usizeMax (e :: rest) dirs =
          ((processEntry target usizeMax e dirs).1,
            (processEntry target usizeMax e dirs).2.1,
            some (ZipError.badCrc32 rel e.computedCrc e.crc32)))
      ∧ (e.computedCrc ≠ e.crc32 → e.crc32 = 0 →
          (processEntry target usizeMax e dirs).2.2 = none
          ∧ (processEntry target usizeMax e dirs).1.countP isCrcWarning = 1
          ∧ unzipEntries target usizeMax (e :: rest) dirs =
              ((processEntry target usizeMax e dirs).1 ++
                  (unzipEntries target usizeMax rest
                    (processEntry target usizeMax e dirs).2.1).1,
                (unzipEntries target usizeMax rest
                  (processEntry target usizeMax e dirs).2.1).2.1,
                (unzipEntries target usizeMax rest
                  (processEntry target usizeMax e dirs).2.1).2.2))
      ∧ (e.computedCrc = e.crc32 →
          (processEntry target usizeMax e dirs).2.2 = none
          ∧ (processEntry target usizeMax e dirs).1.countP isWarning = 0)) := by
    intro dirEffects dirs1 hw hcw hp
    by_cases hcrc : e.computedCrc = e.crc32
    · refine ⟨fun hne => absurd hcrc hne, fun hne => absurd hcrc hne,
        fun _ => ?_⟩
      rw [hp, if_neg (by simpa using hcrc)]
      constructor
      · rfl
      · simp [List.countP_append, hw, isWarning]
    · by_cases hz : e.crc32 = 0
      · refine ⟨fun _ hnz => absurd hz hnz, fun _ _ => ?_,
          fun heq => absurd heq hcrc⟩
        have hnone : (processEntry target usizeMax e dirs).2.2 = none := by
          rw [hp, if_pos hcrc, if_pos hz]
        refine ⟨hnone, ?_, unzipEntries_cons_none _ _ _ _ _ hnone⟩
        rw [hp, if_pos hcrc, if_pos hz]
        simp [List.countP_append, hcw, isCrcWarning]
      · refine ⟨fun _ _ => ?_, fun _ hze => absurd hze hz,
          fun heq => absurd heq hcrc⟩
        have hsome : (processEntry target usizeMax e dirs).2.2 =
            some (ZipError.badCrc32 rel e.computedCrc e.crc32) := by
          rw [hp, if_pos hcrc, if_neg hz]
        exact unzipEntries_cons_some _ _ _ _ _ _ hsome
  rcases hpp : parentPath (joinPath target rel) with _ | parent
  · refine hstep [] dirs rfl rfl ?_
    unfold processEntry
    rw [hname]
    simp only [hdir, Bool.false_eq_true, if_false, hpp]
  · by_cases hm : parent ∈ dirs
    · refine hstep [] dirs rfl rfl ?_
      unfold processEntry
      rw [hname]
      simp only [hdir, Bool.false_eq_true, if_false, hpp, hm, if_true]
    · refine hstep [Effect.createDirAll parent] (parent :: dirs)
        (by simp [isWarning]) (by simp [isCrcWarning]) ?_
      unfold processEntry
      rw [hname]
      simp only [hdir, Bool.false_eq_true, if_false, hpp, hm, if_false]

theorem C2_witness :
    unzipEntries [] 100 [ZipEntry.mk "f".toList 3 7 9] [] =
      ((processEntry [] 100 (ZipEntry.mk "f".toList 3 7 9) []).1,
        (processEntry [] 100 (ZipEntry.mk "f".toList 3 7 9) []).2.1,
        some (ZipError.badCrc32 "f".toList 9 7))
    ∧ (processEntry [] 100 (ZipEntry.mk "f".toList 3 0 9) []).1.countP
        isCrcWarning = 1
    ∧ (processEntry [] 100 (ZipEntry.mk "f".toList 3 9 9) []).1.countP
        isWarning = 0 :=
  ⟨(C2_crc_check [] 100 (ZipEntry.mk "f".toList 3 7 9) [] [] "f".toList
      (by decide) (by decide)).1 (by decide) (by decide),
   ((C2_crc_check [] 100 (ZipEntry.mk "f".toList 3 0 9) [] [] "f".toList
      (by decide) (by decide)).2.1 (by decide) rfl).2.1,
   ((C2_crc_check [] 100 (ZipEntry.mk "f".toList 3 9 9) [] [] "f".toList
      (by decide) (by decide)).2.2 rfl).2⟩

/-! ## C7: symlink entries on platforms without symlink support -/

/-- C7: on a platform that cannot materialize symlinks (Windows), a tar
symlink entry is skipped with exactly one warning, nothing is written
for it, and the loop continues with the remaining entries; on a
symlink-capable platform the same entry is unpacked normally. -/
theorem C7_symlink_skip (unix : Bool) (root : PathK) (fs : FsModes)
    (e : TarEntry) (rest : List TarEntry)
    (hsym : e.entryType = TarEntryType.symlink) :
    (untarEntries true unix root (e :: rest) fs =
      ((untarEntries true unix root rest fs).1,
        Effect.warnSkipSymlink e.path ::
          (untarEntries true unix root rest fs).2))
    ∧ (∀ rel, e.unpackRel = some rel →
        untarStep false unix root fs e =
          (Function.update fs (root ++ rel) e.writtenMode,
            [Effect.unpackEntry (root ++ rel)])) := by
  constructor
  · have hstep : untarStep true unix root fs e =
        (fs, [Effect.warnSkipSymlink e.path]) := by
      unfold untarStep
      rw [if_pos ⟨rfl, hsym⟩]
    simp only [untarEntries, hstep, List.singleton_append]
  · intro rel hrel
    unfold untarStep
    rw [if_neg (by simp), hrel]
    simp [hsym]

theorem C7_witness :
    (untarEntries true true []
        [TarEntry.mk "l".toList TarEntryType.symlink 511
          (some [Component.normal "t".toList]) 420] (fun _ => 0) =
      ((untarEntries true true [] [] (fun _ => 0)).1,
        Effect.warnSkipSymlink "l".toList ::
          (untarEntries true true [] [] (fun _ => 0)).2))
    ∧ untarStep false true [] (fun _ => 0)
        (TarEntry.mk "l".toList TarEntryType.symlink 511
          (some [Component.normal "t".toList]) 420) =
        (Function.update (fun _ => 0) [Component.normal "t".toList] 420,
          [Effect.unpackEntry [Component.normal "t".toList]]) :=
  ⟨(C7_symlink_skip true [] (fun _ => 0)
      (TarEntry.mk "l".toList TarEntryType.symlink 511
        (some [Component.normal "t".toList]) 420) [] rfl).1,
   (C7_symlink_skip true [] (fun _ => 0)
      (TarEntry.mk "l".toList TarEntryType.symlink 511
        (some [Component.normal "t".toList]) 420) [] rfl).2
     [Component.normal "t".toList] rfl⟩

/-! ## C8: idempotent directory creation -/

/-- The directory path an entry asks the extractor to create, if any:
the joined path of a directory entry, or the parent of a file entry. -/
def entryDirTarget (target : PathK) (e : ZipEntry) : Option PathK :=
  match enclosed_name e.filename with
  | none => none
  | some rel =>
      if e.isDir then some (joinPath target rel)
      else parentPath (joinPath target rel)

/-- The distinct-by-construction list of directories the entries of an
archive reference. -/
def dirTargets (target : PathK) (entries : List ZipEntry) : List PathK :=
  entries.filterMap (entryDirTarget target)

lemma createdDirs_append (l₁ l₂ : List Effect) :
    createdDirs (l₁ ++ l₂) = createdDirs l₁ ++ createdDirs l₂ :=
  List.filterMap_append l₁ l₂ _

lemma processEntry_dirs (target : PathK) (usizeMax : Nat) (e : ZipEntry)
    (dirs : List PathK) :
    (createdDirs (processEntry target usizeMax e dirs).1).Nodup
    ∧ (∀ p ∈ createdDirs (processEntry target usizeMax e dirs).1, p ∉ dirs)
    ∧ (∀ p ∈ createdDirs (processEntry target usizeMax e dirs).1,
        p ∈ (processEntry target usizeMax e dirs).2.1)
    ∧ (∀ p ∈ createdDirs (processEntry target usizeMax e dirs).1,
        entryDirTarget target e = some p)
    ∧ dirs ⊆ (processEntry target usizeMax e dirs).2.1 := by
  unfold processEntry entryDirTarget
  rcases enclosed_name e.filename with _ | rel
  · simp [createdDirs]
  · rcases hd : e.isDir with _ | _ <;>
      simp only [Bool.false_eq_true, if_false, if_true]
    · split <;> (try split) <;> (try split) <;> (try split) <;>
        simp_all [createdDirs, List.filterMap, List.Subset.refl,
          List.subset_cons_self]
    · by_cases hm : joinPath target rel ∈ dirs <;>
        simp_all [createdDirs, List.filterMap, List.subset_cons_self]

lemma unzipEntries_dirs (target : PathK) (usizeMax : Nat)
    (entries : List ZipEntry) (dirs : List PathK) :
    (createdDirs (unzipEntries target usizeMax entries dirs).1).Nodup
    ∧ (∀ p ∈ createdDirs (unzipEntries target usizeMax entries dirs).1,
        p ∉ dirs)
    ∧ (∀ p ∈ createdDirs (unzipEntries target usizeMax entries dirs).1,
        p ∈ (unzipEntries target usizeMax entries dirs).2.1)
    ∧ (∀ p ∈ createdDirs (unzipEntries target usizeMax entries dirs).1,
        p ∈ dirTargets target entries)
    ∧ dirs ⊆ (unzipEntries target usizeMax entries dirs).2.1 := by
  induction entries generalizing dirs with
  | nil => simp [unzipEntries, createdDirs]
  | cons e rest ih =>
      obtain ⟨snodup, sdisj, ssub, stgt, sgrow⟩ :=
        processEntry_dirs target usizeMax e dirs
      have htgtcons : ∀ p, entryDirTarget target e = some p →
          p ∈ dirTargets target (e :: rest) := fun p hp =>
        List.mem_filterMap.mpr ⟨e, List.mem_cons_self e rest, hp⟩
      have htgtrest : ∀ p, p ∈ dirTargets target rest →
          p ∈ dirTargets target (e :: rest) := fun p hp => by
        obtain ⟨a, ha, hfa⟩ := List.mem_filterMap.mp hp
        exact List.mem_filterMap.mpr ⟨a, List.mem_cons_of_mem e ha, hfa⟩
      rcases herr : (processEntry target usizeMax e dirs).2.2 with _ | er
      · have hfst : (unzipEntries target usizeMax (e :: rest) dirs).1 =
            (processEntry target usizeMax e dirs).1 ++
              (unzipEntries target usizeMax rest
                (processEntry target usizeMax e dirs).2.1).1 := by
          rw [unzipEntries_cons_none _ _ _ _ _ herr]
        have hsnd : (unzipEntries target usizeMax (e :: rest) dirs).2.1 =
            (unzipEntries target usizeMax rest
              (processEntry target usizeMax e dirs).2.1).2.1 := by
          rw [unzipEntries_cons_none _ _ _ _ _ herr]
        obtain ⟨inodup, idisj, isub, itgt, igrow⟩ :=
          ih (processEntry target usizeMax e dirs).2.1
        rw [hfst, hsnd, createdDirs_append]
        refine ⟨?_, ?_, ?_, ?_, ?_⟩
        · rw [List.nodup_append]
          exact ⟨snodup, inodup, fun a ha hb => idisj a hb (ssub a ha)⟩
        · intro p hp
          rcases List.mem_append.mp hp with hp | hp
          · exact sdisj p hp
          · exact fun hmem => idisj p hp (sgrow hmem)
        · intro p hp
          rcases List.mem_append.mp hp with hp | hp
          · exact igrow (ssub p hp)
          · exact isub p hp
        · intro p hp
          rcases List.mem_append.mp hp with hp | hp
          · exact htgtcons p (stgt p hp)
          · exact htgtrest p (itgt p hp)
        · exact fun a ha => igrow (sgrow ha)
      · have hfst : (unzipEntries target usizeMax (e :: rest) dirs).1 =
            (processEntry target usizeMax e dirs).1 := by
          rw [unzipEntries_cons_some _ _ _ _ _ _ herr]
        have hsnd : (unzipEntries target usizeMax (e :: rest) dirs).2.1 =
            (processEntry target usizeMax e dirs).2.1 := by
          rw [unzipEntries_cons_some _ _ _ _ _ _ herr]
        rw [hfst, hsnd]
        exact ⟨snodup, sdisj, ssub, fun p hp => htgtcons p (stgt p hp), sgrow⟩

/-- C8: within one zip extraction call (whose memoization set starts
empty), `create_dir_all` is invoked at most once per distinct directory
path — the created paths are pairwise distinct, each is a directory some
entry references, and their number is bounded by the number of distinct
referenced directories. -/
theorem C8_dir_memoization (target : PathK) (usizeMax : Nat)
    (entries : List ZipEntry) :
    (createdDirs (unzipEntries target usizeMax entries []).1).Nodup
    ∧ (∀ p ∈ createdDirs (unzipEntries target usizeMax entries []).1,
        p ∈ dirTargets target entries)
    ∧ (createdDirs (unzipEntries target usizeMax entries []).1).length ≤
        (dirTargets target entries).dedup.length := by
  obtain ⟨hnd, _, _, htgt, _⟩ := unzipEntries_dirs target usizeMax entries []
  refine ⟨hnd, htgt, ?_⟩
  calc (createdDirs (unzipEntries target usizeMax entries []).1).length
      = (createdDirs (unzipEntries target usizeMax entries []).1).toFinset.card :=
        (List.toFinset_card_of_nodup hnd).symm
    _ ≤ (dirTargets target entries).toFinset.card :=
        Finset.card_le_card (fun p hp =>
          List.mem_toFinset.mpr (htgt p (List.mem_toFinset.mp hp)))
    _ = (dirTargets target entries).dedup.length := List.card_toFinset _

theorem C8_witness :
    (createdDirs (unzipEntries [] 100
        [ZipEntry.mk "d/".toList 0 0 0, ZipEntry.mk "d/f".toList 1 5 5,
          ZipEntry.mk "d/g".toList 1 6 6] []).1).Nodup
    ∧ [Component.normal "d".toList] ∈ dirTargets []
        [ZipEntry.mk "d/".toList 0 0 0, ZipEntry.mk "d/f".toList 1 5 5,
          ZipEntry.mk "d/g".toList 1 6 6] :=
  ⟨(C8_dir_memoization [] 100
      [ZipEntry.mk "d/".toList 0 0 0, ZipEntry.mk "d/f".toList 1 5 5,
        ZipEntry.mk "d/g".toList 1 6 6]).1,
   (C8_dir_memoization [] 100
      [ZipEntry.mk "d/".toList 0 0 0, ZipEntry.mk "d/f".toList 1 5 5,
        ZipEntry.mk "d/g".toList 1 6 6]).2.1
     [Component.normal "d".toList] (by decide)⟩

/-! ## C5: canonicalization of the destination -/

lemma untarStep_no_canon (windows unix : Bool) (root : PathK) (fs : FsModes)
    (e : TarEntry) :
    (untarStep windows unix root fs e).2.countP isCanonicalize = 0 := by
  unfold untarStep
  split
  · simp [isCanonicalize]
  · rcases hrel : e.unpackRel with _ | rel <;>
      simp only [hrel, Option.map_some', Option.map_none'] <;>
      split <;> (try split) <;>
      simp [isCanonicalize, List.countP_append]

lemma untarStep_write_paths (windows unix : Bool) (root : PathK)
    (fs : FsModes) (e : TarEntry) (p : PathK)
    (hp : p ∈ (untarStep windows unix root fs e).2.filterMap writePath) :
    ∃ rel, p = root ++ rel := by
  unfold untarStep at hp
  split at hp
  · simp [writePath] at hp
  · rcases hrel : e.unpackRel with _ | rel <;>
      rw [hrel] at hp <;>
      simp only [Option.map_some', Option.map_none'] at hp
    · split at hp <;> simp [writePath] at hp
    · split at hp <;> (try split at hp) <;>
        simp only [List.filterMap_append, List.filterMap, writePath,
          List.mem_append, List.mem_singleton, List.mem_cons,
          List.not_mem_nil, or_false] at hp <;>
        first
          | (rcases hp with hp | hp <;> exact ⟨rel, hp⟩)
          | exact ⟨rel, hp⟩

lemma untarEntries_no_canon (windows unix : Bool) (root : PathK)
    (entries : List TarEntry) (fs : FsModes) :
    (untarEntries windows unix root entries fs).2.countP isCanonicalize = 0 := by
  induction entries generalizing fs with
  | nil => simp [untarEntries]
  | cons e rest ih =>
      simp only [untarEntries, List.countP_append,
        untarStep_no_canon windows unix root fs e,
        ih (untarStep windows unix root fs e).1]

lemma untarEntries_write_paths (windows unix : Bool) (root : PathK)
    (entries : List TarEntry) (fs : FsModes) (p : PathK)
    (hp : p ∈ (untarEntries windows unix root entries fs).2.filterMap
      writePath) : ∃ rel, p = root ++ rel := by
  induction entries generalizing fs with
  | nil => simp [untarEntries] at hp
  | cons e rest ih =>
      simp only [untarEntries, List.filterMap_append, List.mem_append] at hp
      rcases hp with hp | hp
      · exact untarStep_write_paths windows unix root fs e p hp
      · exact ih (untarStep windows unix root fs e).1 hp

lemma processEntry_no_canon (target : PathK) (usizeMax : Nat) (e : ZipEntry)
    (dirs : List PathK) :
    (processEntry target usizeMax e dirs).1.countP isCanonicalize = 0 := by
  unfold processEntry
  rcases enclosed_name e.filename with _ | rel
  · simp [isCanonicalize]
  · repeat' split
    all_goals (try simp_all [isCanonicalize, List.countP_append])
    all_goals (repeat' split)
    all_goals (try simp_all [isCanonicalize])

lemma unzipEntries_no_canon (target : PathK) (usizeMax : Nat)
    (entries : List ZipEntry) (dirs : List PathK) :
    (unzipEntries target usizeMax entries dirs).1.countP isCanonicalize = 0 := by
  induction entries generalizing dirs with
  | nil => simp [unzipEntries]
  | cons e rest ih =>
      rcases herr : (processEntry target usizeMax e dirs).2.2 with _ | er
      · have h := unzipEntries_cons_none target usizeMax e rest dirs herr
        rw [show (unzipEntries target usizeMax (e :: rest) dirs).1 =
            (processEntry target usizeMax e dirs).1 ++
              (unzipEntries target usizeMax rest
                (processEntry target usizeMax e dirs).2.1).1 from by rw [h]]
        simp only [List.countP_append, processEntry_no_canon,
          ih (processEntry target usizeMax e dirs).2.1]
      · have h := unzipEntries_cons_some target usizeMax e rest dirs er herr
        rw [show (unzipEntries target usizeMax (e :: rest) dirs).1 =
            (processEntry target usizeMax e dirs).1 from by rw [h]]
        exact processEntry_no_canon target usizeMax e dirs

lemma cdStep_no_canon (target : PathK) (fs : FsModes) (e : CdEntry) :
    (cdStep target fs e).2.countP isCanonicalize = 0 := by
  unfold cdStep
  repeat' split
  all_goals (try simp_all [isCanonicalize])
  all_goals (repeat' split)
  all_goals (try simp_all [isCanonicalize])

lemma cdPass_no_canon (target : PathK) (cd : List CdEntry) (fs : FsModes) :
    (cdPass target cd fs).2.countP isCanonicalize = 0 := by
  induction cd generalizing fs with
  | nil => rfl
  | cons e rest ih =>
      simp only [cdPass, List.countP_append, cdStep_no_canon target fs e,
        ih (cdStep target fs e).1]

/-- C5 (amended): the tar extractor canonicalizes the destination
exactly once, as its first action before any write, and resolves every
written path against the canonicalized root; the zip extractor performs
no canonicalization at all and resolves entries against the target
directory as supplied. -/
theorem C5_canonicalization (windows unix : Bool) (canonFn : PathK → PathK)
    (dst : PathK) (entries : List TarEntry) (fs : FsModes)
    (zunix : Bool) (target : PathK) (usizeMax : Nat)
    (zentries : List ZipEntry) (cd : List CdEntry) (zfs : FsModes) :
    ((untar_in windows unix canonFn dst entries fs).2.countP isCanonicalize = 1
      ∧ ∃ body,
          (untar_in windows unix canonFn dst entries fs).2 =
            Effect.canonicalize dst :: body
          ∧ body.countP isCanonicalize = 0
          ∧ ∀ p ∈ body.filterMap writePath, ∃ rel, p = canonFn dst ++ rel)
    ∧ (unzip zunix target usizeMax zentries cd zfs).1.countP
        isCanonicalize = 0 := by
  constructor
  · constructor
    · show (Effect.canonicalize dst ::
          (untarEntries windows unix (canonFn dst) entries fs).2).countP
          isCanonicalize = 1
      rw [List.countP_cons_of_pos _ _ (by rfl)]
      rw [untarEntries_no_canon]
    · exact ⟨(untarEntries windows unix (canonFn dst) entries fs).2, rfl,
        untarEntries_no_canon windows unix (canonFn dst) entries fs,
        fun p hp =>
          untarEntries_write_paths windows unix (canonFn dst) entries fs p hp⟩
  · unfold unzip
    rcases herr : (unzipEntries target usizeMax zentries []).2.2 with _ | er <;>
      simp only [herr]
    · rcases zunix with _ | _ <;>
        simp only [Bool.false_eq_true, if_false, if_true]
      · exact unzipEntries_no_canon target usizeMax zentries []
      · rw [List.countP_append, unzipEntries_no_canon, cdPass_no_canon]
    · exact unzipEntries_no_canon target usizeMax zentries []

/-- C5 counterexample: a zip extraction that writes a directory while
performing no canonicalization of the target, refuting "canonicalized
exactly once before any write" for the zip extractor. -/
theorem C5_counterexample :
    (unzip true [Component.normal "t".toList] 100
        [ZipEntry.mk "d/".toList 0 0 0] [] (fun _ => 0)).1 =
      [Effect.createDirAll [Component.normal "t".toList,
        Component.normal "d".toList]]
    ∧ (unzip true [Component.normal "t".toList] 100
        [ZipEntry.mk "d/".toList 0 0 0] [] (fun _ => 0)).1.countP
        isCanonicalize = 0 := by
  constructor <;> decide

/-! ## C3: executable-bit preservation -/

lemma and_or_absorb (a m : Nat) : a &&& (a ||| m) = a := by
  apply Nat.eq_of_testBit_eq
  intro i
  rw [Nat.testBit_and, Nat.testBit_or]
  cases a.testBit i <;> simp

lemma or_and_absorb (a m : Nat) : (a ||| m) &&& m = m := by
  apply Nat.eq_of_testBit_eq
  intro i
  rw [Nat.testBit_and, Nat.testBit_or]
  cases m.testBit i <;> simp

lemma or_eq_self_of_and_eq (a m : Nat) (h : a &&& m = m) : a ||| m = a := by
  apply Nat.eq_of_testBit_eq
  intro i
  have hi := congrArg (fun x => x.testBit i) h
  simp only [Nat.testBit_and] at hi
  rw [Nat.testBit_or]
  cases hm : m.testBit i <;> cases ha : a.testBit i <;> simp_all

lemma and_eq_trans (a b c : Nat) (hab : a &&& b = a) (hbc : b &&& c = b) :
    a &&& c = a := by
  apply Nat.eq_of_testBit_eq
  intro i
  have h1 := congrArg (fun x => x.testBit i) hab
  have h2 := congrArg (fun x => x.testBit i) hbc
  simp only [Nat.testBit_and] at h1 h2
  rw [Nat.testBit_and]
  cases ha : a.testBit i <;> cases hb : b.testBit i <;>
    cases hc : c.testBit i <;> simp_all

lemma exec_mono (a b m : Nat) (h1 : a &&& m = m) (h2 : a &&& b = a) :
    b &&& m = m := by
  apply Nat.eq_of_testBit_eq
  intro i
  have hi1 := congrArg (fun x => x.testBit i) h1
  have hi2 := congrArg (fun x => x.testBit i) h2
  simp only [Nat.testBit_and] at hi1 hi2
  rw [Nat.testBit_and]
  cases hm : m.testBit i <;> cases ha : a.testBit i <;>
    cases hb : b.testBit i <;> simp_all

lemma cdStep_additive (target : PathK) (fs : FsModes) (e : CdEntry)
    (q : PathK) : fs q &&& (cdStep target fs e).1 q = fs q := by
  unfold cdStep
  repeat' split
  all_goals (try exact Nat.and_self _)
  all_goals (dsimp only; repeat' split)
  all_goals (try exact Nat.and_self _)
  all_goals (dsimp only; rw [Function.update_apply]; split)
  · rename_i hq
    rw [hq]
    exact and_or_absorb _ _
  · exact Nat.and_self _

lemma cdStep_preserves_exec (target : PathK) (fs : FsModes) (e : CdEntry)
    (q : PathK) (h : fs q &&& 0o111 = 0o111) :
    (cdStep target fs e).1 q &&& 0o111 = 0o111 :=
  exec_mono (fs q) ((cdStep target fs e).1 q) 0o111 h
    (cdStep_additive target fs e q)

lemma cdPass_additive (target : PathK) (cd : List CdEntry) (fs : FsModes)
    (q : PathK) : fs q &&& (cdPass target cd fs).1 q = fs q := by
  induction cd generalizing fs with
  | nil => exact Nat.and_self _
  | cons e rest ih =>
      exact and_eq_trans _ _ _ (cdStep_additive target fs e q)
        (ih (cdStep target fs e).1)

lemma cdPass_preserves_exec (target : PathK) (cd : List CdEntry)
    (fs : FsModes) (q : PathK) (h : fs q &&& 0o111 = 0o111) :
    (cdPass target cd fs).1 q &&& 0o111 = 0o111 :=
  exec_mono (fs q) ((cdPass target cd fs).1 q) 0o111 h
    (cdPass_additive target cd fs q)

lemma cdStep_exec (target : PathK) (fs : FsModes) (e : CdEntry) (mode : Nat)
    (rel : Name) (hdir : e.isDir = false)
    (hperm : e.unixPermissions = some mode) (hexec : mode &&& 0o111 ≠ 0)
    (hname : enclosed_name e.filename = some rel) :
    (cdStep target fs e).1 (joinPath target rel) =
      fs (joinPath target rel) ||| 0o111 := by
  unfold cdStep
  simp only [hdir, Bool.false_eq_true, if_false, hperm, hname,
    if_pos hexec]
  split
  · simp only [Function.update_same]
  · rename_i hfull
    rw [not_not] at hfull
    exact (or_eq_self_of_and_eq _ _ hfull).symm

lemma cdStep_skip (target : PathK) (fs : FsModes) (e : CdEntry)
    (h : e.isDir = true ∨ e.unixPermissions = none ∨
      (∃ m, e.unixPermissions = some m ∧ m &&& 0o111 = 0)) :
    cdStep target fs e = (fs, []) := by
  unfold cdStep
  split
  · rfl
  · rename_i hd
    rcases h with h | h | ⟨m, hm, hz⟩
    · exact absurd h hd
    · simp only [h]
    · simp only [hm]
      rw [if_neg (not_not_intro hz)]

lemma cdPass_exec (target : PathK) (cd : List CdEntry) (fs : FsModes)
    (e : CdEntry) (mode : Nat) (rel : Name) (hmem : e ∈ cd)
    (hdir : e.isDir = false) (hperm : e.unixPermissions = some mode)
    (hexec : mode &&& 0o111 ≠ 0)
    (hname : enclosed_name e.filename = some rel) :
    (cdPass target cd fs).1 (joinPath target rel) &&& 0o111 = 0o111 := by
  induction cd generalizing fs with
  | nil => exact absurd hmem (List.not_mem_nil e)
  | cons a rest ih =>
      have hpass : (cdPass target (a :: rest) fs).1 =
          (cdPass target rest (cdStep target fs a).1).1 := by
        simp only [cdPass]
      rw [hpass]
      rcases List.mem_cons.mp hmem with rfl | hmem2
      · refine cdPass_preserves_exec target rest _ _ ?_
        rw [cdStep_exec target fs e mode rel hdir hperm hexec hname]
        exact or_and_absorb _ _
      · exact ih (cdStep target fs a).1 hmem2

lemma untarStep_exec (windows : Bool) (root : PathK) (fs : FsModes)
    (e : TarEntry) (rel : PathK)
    (htype : e.entryType = TarEntryType.file ∨
      e.entryType = TarEntryType.hardLink)
    (hexec : e.mode &&& 0o111 ≠ 0) (hrel : e.unpackRel = some rel) :
    (untarStep windows true root fs e).1 (root ++ rel) =
      e.writtenMode ||| 0o111 := by
  unfold untarStep
  rw [if_neg (by rcases htype with h | h <;> simp [h]), hrel]
  simp only [Option.map_some']
  split
  · split
    · simp only [Function.update_same]
    · rename_i hfull
      simp only [Function.update_same] at hfull
      rw [not_not] at hfull
      simp only [Function.update_same]
      exact (or_eq_self_of_and_eq _ _ hfull).symm
  · rename_i hcond
    exact absurd ⟨by simp, htype, hexec⟩ hcond

lemma untarStep_no_exec_no_perm (windows unix : Bool) (root : PathK)
    (fs : FsModes) (e : TarEntry) (h : e.mode &&& 0o111 = 0) :
    (untarStep windows unix root fs e).2.countP isSetPermissions = 0 := by
  unfold untarStep
  split
  · simp [isSetPermissions]
  · rw [if_neg (by simp [h])]
    rcases hrel : e.unpackRel with _ | rel <;>
      simp [hrel, isSetPermissions]

/-- C3: executable-permission handling.  For zip, the central-directory
pass is purely additive on every path (no permission bit is ever
cleared); any non-directory entry carrying permission metadata with an
execute bit leaves its file with all three execute bits set after the
pass, the per-entry update being exactly `old OR 0o111`; directory
entries, entries without permission metadata, and entries with no
execute bit cause no change at all.  For tar, a regular-file or
hard-link entry whose header mode declares an execute bit ends the
entry's step with mode `written OR 0o111` (hence all of `0o111` set),
and an entry with no declared execute bit triggers no permission
change. -/
theorem C3_exec_bits (target : PathK) (cd : List CdEntry) (fs : FsModes) :
    (∀ q, fs q &&& (cdPass target cd fs).1 q = fs q)
    ∧ (∀ e ∈ cd, ∀ mode rel, e.isDir = false →
        e.unixPermissions = some mode → mode &&& 0o111 ≠ 0 →
        enclosed_name e.filename = some rel →
        (cdPass target cd fs).1 (joinPath target rel) &&& 0o111 = 0o111)
    ∧ (∀ (fs2 : FsModes) (e : CdEntry), (e.isDir = true ∨
          e.unixPermissions = none ∨
          (∃ m, e.unixPermissions = some m ∧ m &&& 0o111 = 0)) →
        cdStep target fs2 e = (fs2, []))
    ∧ (∀ (fs2 : FsModes) (e : CdEntry) (mode : Nat) (rel : Name),
        e.isDir = false → e.unixPermissions = some mode →
        mode &&& 0o111 ≠ 0 → enclosed_name e.filename = some rel →
        (cdStep target fs2 e).1 (joinPath target rel) =
          fs2 (joinPath target rel) ||| 0o111)
    ∧ (∀ (windows : Bool) (root : PathK) (fs2 : FsModes) (e : TarEntry)
          (rel : PathK),
        (e.entryType = TarEntryType.file ∨
          e.entryType = TarEntryType.hardLink) →
        e.mode &&& 0o111 ≠ 0 → e.unpackRel = some rel →
        (untarStep windows true root fs2 e).1 (root ++ rel) =
          e.writtenMode ||| 0o111
        ∧ (untarStep windows true root fs2 e).1 (root ++ rel) &&& 0o111 =
            0o111)
    ∧ (∀ (windows unix : Bool) (root : PathK) (fs2 : FsModes) (e : TarEntry),
        e.mode &&& 0o111 = 0 →
        (untarStep windows unix root fs2 e).2.countP isSetPermissions = 0) := by
  refine ⟨fun q => cdPass_additive target cd fs q,
    fun e hmem mode rel h1 h2 h3 h4 =>
      cdPass_exec target cd fs e mode rel hmem h1 h2 h3 h4,
    fun fs2 e h => cdStep_skip target fs2 e h,
    fun fs2 e mode rel h1 h2 h3 h4 =>
      cdStep_exec target fs2 e mode rel h1 h2 h3 h4,
    fun windows root fs2 e rel htype hexec hrel => ?_,
    fun windows unix root fs2 e h =>
      untarStep_no_exec_no_perm windows unix root fs2 e h⟩
  have heq := untarStep_exec windows root fs2 e rel htype hexec hrel
  exact ⟨heq, by rw [heq]; exact or_and_absorb _ _⟩

theorem C3_witness :
    (cdPass [] [CdEntry.mk "f".toList (some 493)] (fun _ => 416)).1
        (joinPath [] "f".toList) &&& 0o111 = 0o111
    ∧ cdStep [] (fun _ => 416) (CdEntry.mk "d/".toList (some 493)) =
        (fun _ => 416, [])
    ∧ (untarStep false true [] (fun _ => 0)
        (TarEntry.mk "f".toList TarEntryType.file 493
          (some [Component.normal "f".toList]) 420)).1
        ([] ++ [Component.normal "f".toList]) = 420 ||| 0o111 :=
  ⟨(C3_exec_bits [] [CdEntry.mk "f".toList (some 493)] (fun _ => 416)).2.1
      (CdEntry.mk "f".toList (some 493)) (List.mem_singleton.mpr rfl)
      493 "f".toList (by decide) rfl (by decide) (by decide),
   (C3_exec_bits [] [] (fun _ => 0)).2.2.1 (fun _ => 416)
      (CdEntry.mk "d/".toList (some 493)) (Or.inl (by decide)),
   ((C3_exec_bits [] [] (fun _ => 0)).2.2.2.2.1 false []
      (fun _ => 0)
      (TarEntry.mk "f".toList TarEntryType.file 493
        (some [Component.normal "f".toList]) 420)
      [Component.normal "f".toList] (Or.inl rfl) (by decide) rfl).1⟩

theorem C1_witness : enclosed_name "../a".toList = none :=
  (C1_enclosed_name_rejection.1 "../a".toList).mpr
    (Or.inr (Or.inr ⟨1, by decide⟩))

theorem C5_witness :
    (unzip true [] 100 [] [] (fun _ => 0)).1.countP isCanonicalize = 0 :=
  (C5_canonicalization false true id [] [] (fun _ => 0)
    true [] 100 [] [] (fun _ => 0)).2

end UvExtract
